import Mathlib

/-!
Verification development for the incremental annotation writer and the
demand paged document accessor variants of a PDF viewer fork.

The definitions below are a shallow embedding of the JavaScript sources
src/core/annotation_writer.js, src/core/pdf_manager.js and
src/editing/annotating.js.  JavaScript numbers are modelled exactly:
coordinates and view components as rationals, sizes and offsets as
integers.  Dictionaries are modelled as ordered association lists,
matching the insertion order semantics of JavaScript object properties
(setting an existing key keeps its position, setting a fresh key appends).
Asynchronous methods are modelled as pure functions; a rejected promise is
modelled as the error case of an Except value, and the in place mutation
of the trailer dictionary is modelled by explicit state passing of the
document value.
-/

/-- Indirect object reference, as built by new Ref(num, gen) in
core/primitives: object number and generation.  Equality is structural. -/
structure Ref where
  num : ℤ
  gen : ℤ
deriving DecidableEq

/-- Values storable in a PDF dictionary on the modelled code paths: name
tokens, strings, integral numbers, indirect references and arrays.
Directly nested dictionary values do not occur on the modelled paths and
page dictionary entries are treated as opaque values of this type. -/
inductive PDFVal where
  | name : String → PDFVal
  | str : String → PDFVal
  | int : ℤ → PDFVal
  | ref : Ref → PDFVal
  | arr : List PDFVal → PDFVal

/-- Modelled from the spec: the Dict class of core/primitives is not under
src.  Per the spec it is an ordered mapping from names to values with
unique keys, last write wins, and key enumeration in insertion order; the
underlying JavaScript object is modelled as an association list. -/
structure Dict where
  entries : List (String × PDFVal)

/-- Lookup of the first entry with the given key. -/
def Dict.getRawList : List (String × PDFVal) → String → Option PDFVal
  | [], _ => none
  | (k1, v1) :: rest, k => if k1 = k then some v1 else Dict.getRawList rest k

/-- Update in place when the key is present, append otherwise, matching
assignment to a JavaScript object property. -/
def Dict.setList : List (String × PDFVal) → String → PDFVal → List (String × PDFVal)
  | [], k, v => [(k, v)]
  | (k1, v1) :: rest, k, v =>
      if k1 = k then (k, v) :: rest else (k1, v1) :: Dict.setList rest k v

def Dict.empty : Dict := ⟨[]⟩

def Dict.set (d : Dict) (k : String) (v : PDFVal) : Dict :=
  ⟨Dict.setList d.entries k v⟩

/-- Retrieval of the stored value, bypassing indirect reference
resolution. -/
def Dict.getRaw (d : Dict) (k : String) : Option PDFVal :=
  Dict.getRawList d.entries k

/-- Retrieval as used for trailer lookup; indirect reference resolution
lives in the external cross reference table and never occurs on the
modelled paths, so get coincides with getRaw here. -/
def Dict.get (d : Dict) (k : String) : Option PDFVal :=
  d.getRaw k

/-- Keys in insertion order. -/
def Dict.getKeys (d : Dict) : List String :=
  d.entries.map (fun kv => kv.1)

/-- JavaScript parseInt applied to an exact numeric value, as in
parseInt(coords.x * width): truncation toward zero. -/
def jsTrunc (q : ℚ) : ℤ := q.num.tdiv (q.den : ℤ)

/-- View rectangle of a page in user space units; the source reads
components 2 and 3 as the page width and height. -/
structure PageView where
  v0 : ℚ
  v1 : ℚ
  v2 : ℚ
  v3 : ℚ
deriving DecidableEq

/-- Modelled from the spec: the Page class of core/document.js is not
under src.  Per the spec a page carries an identity Ref, a view rectangle
in user space units, a backing dictionary and a sequence of annotation
Refs; per spec section 4.3 step 5 the annotation sequence obtained from
the page is a copy, so it is an immutable snapshot field here. -/
structure Page where
  ref : Ref
  view : PageView
  annotations : List Ref
  pageDict : Dict

/-- Coordinates object for annotations, fractions of the page extent. -/
structure AnnotationCoordinates where
  x : ℚ
  y : ℚ
deriving DecidableEq

/-- Annotation parameters object: page index, coordinates, contents and
optional author; a missing author models the undefined property. -/
structure AnnotationProperties where
  page : ℕ
  coords : AnnotationCoordinates
  contents : String
  author : Option String
deriving DecidableEq

/-- Embedding of annotationDict from core/annotation_writer.js: builds the
dictionary of the new text annotation, setting Type, Rect, Subtype,
Contents and, only when an author was supplied, T. -/
def annotationDict (a : AnnotationProperties) (pdfPage : Page) : Dict :=
  let d0 := Dict.empty.set "Type" (PDFVal.name "Annot")
  let width := pdfPage.view.v2
  let height := pdfPage.view.v3
  let x := jsTrunc (a.coords.x * width)
  let y := jsTrunc (a.coords.y * height)
  let d1 := d0.set "Rect"
    (PDFVal.arr [PDFVal.int x, PDFVal.int y, PDFVal.int (x + 12), PDFVal.int (y + 10)])
  let d2 := d1.set "Subtype" (PDFVal.name "Text")
  let d3 := d2.set "Contents" (PDFVal.str a.contents)
  match a.author with
  | some author => d3.set "T" (PDFVal.str author)
  | none => d3

/-- Cross reference table as consumed by the modelled paths: only its
trailer dictionary is read. -/
structure XRef where
  trailer : Dict

/-- Parsed document as consumed by the modelled paths: the cross
reference table, the byte offset of the prior cross reference section and
the pages.  Re-parsing, decoding and the byte cache are external
collaborators. -/
structure PDFDocument where
  xref : XRef
  startXRef : ℤ
  pages : List Page

/-- Modelled from the spec: getPage of core/document.js is not under src.
Per the spec it fetches a page by zero based index and fails (a rejected
promise) on an invalid index. -/
def PDFDocument.getPage (doc : PDFDocument) (pageIndex : ℕ) : Option Page :=
  doc.pages[pageIndex]?

/-- Failure cases of the annotation write: a rejected page resolution
promise, or a trailer whose Size entry is not an integral number (the
modelled paths never run with the latter). -/
inductive WriteErr where
  | badSize
  | pageNotFound
deriving DecidableEq

/-- Loop body of the page dictionary rewrite in writeAnnotation: skip the
Annots key, copy the raw value of every other key into the accumulator.
The none branch is unreachable when the key list comes from the
dictionary itself. -/
def copyStep (pageDict : Dict) (acc : Dict) (k : String) : Dict :=
  if k = "Annots" then acc
  else
    match pageDict.getRaw k with
    | some v => acc.set k v
    | none => acc

/-- Embedding of the for loop of writeAnnotation that copies every key of
the original page dictionary except Annots into a fresh dictionary. -/
def copyExceptAnnots (pageDict : Dict) : Dict :=
  pageDict.getKeys.foldl (copyStep pageDict) Dict.empty

/-- Rewritten page dictionary built by writeAnnotation: the copy of the
original without Annots, then Annots set to the updated annotation
sequence. -/
def newPageDictFor (pageDict : Dict) (annots : List Ref) : Dict :=
  (copyExceptAnnots pageDict).set "Annots" (PDFVal.arr (annots.map PDFVal.ref))

/-- Structured content accumulated by the PDFDataWriter chain of
writeAnnotation before serialization: prior file length, trailer after
the Size increment, prior cross reference offset, the new annotation
object and the rewritten page object. -/
structure UpdateFragment where
  byteLength : ℤ
  trailer : Dict
  startXRef : ℤ
  annRef : Ref
  annDict : Dict
  pageRef : Ref
  pageDict : Dict

/-- Embedding of writeAnnotation from core/annotation_writer.js up to the
serialization chain: read Size from the trailer, mint the Ref of the new
annotation object, store the incremented Size back into the trailer
(state passing models the in place mutation), then resolve the page,
append the new Ref to a copy of its annotation sequence, rewrite the page
dictionary and build the annotation dictionary.  The Size update happens
before page resolution, exactly as in the source. -/
def writeAnnotationFrag (pdfDocument : PDFDocument) (a : AnnotationProperties)
    (byteLength : ℤ) : Except WriteErr UpdateFragment × PDFDocument :=
  match pdfDocument.xref.trailer.get "Size" with
  | some (PDFVal.int size) =>
    let newAnnotationRef : Ref := { num := size, gen := 0 }
    let trailer := pdfDocument.xref.trailer.set "Size" (PDFVal.int (size + 1))
    let doc := { pdfDocument with xref := { trailer := trailer } }
    match pdfDocument.getPage a.page with
    | some pdfPage =>
      let annots := pdfPage.annotations ++ [newAnnotationRef]
      let newPageDict := newPageDictFor pdfPage.pageDict annots
      let newAnnotationDict := annotationDict a pdfPage
      (Except.ok
        { byteLength := byteLength
          trailer := trailer
          startXRef := doc.startXRef
          annRef := newAnnotationRef
          annDict := newAnnotationDict
          pageRef := pdfPage.ref
          pageDict := newPageDict }, doc)
    | none => (Except.error WriteErr.pageNotFound, doc)
  | _ => (Except.error WriteErr.badSize, pdfDocument)

/-- Modelled from the spec: serialization of a value by the PDFDataWriter
of core/pdf_data_writer.js, which is not under src.  Names are slash
prefixed tokens, strings are parenthesized, references are number
generation R pairs and arrays are bracketed. -/
def serializeVal : PDFVal → String
  | PDFVal.name n => "/" ++ n
  | PDFVal.str s => "(" ++ s ++ ")"
  | PDFVal.int i => toString i
  | PDFVal.ref r => toString r.num ++ " " ++ toString r.gen ++ " R"
  | PDFVal.arr xs =>
      "[" ++ String.intercalate " " (xs.attach.map (fun x => serializeVal x.1)) ++ "]"
decreasing_by
  have h := List.sizeOf_lt_of_mem x.2
  simp only [PDFVal.arr.sizeOf_spec]
  omega

/-- Modelled from the spec: dictionary serialization, key value pairs in
insertion order between double angle brackets. -/
def serializeDict (d : Dict) : String :=
  "<<" ++ String.intercalate " "
    (d.entries.map (fun kv => "/" ++ kv.1 ++ " " ++ serializeVal kv.2)) ++ ">>"

/-- Modelled from the spec: one indirect object block, object number and
generation, the obj keyword, the dictionary body and the endobj marker. -/
def serializeObj (r : Ref) (d : Dict) : String :=
  toString r.num ++ " " ++ toString r.gen ++ " obj\n" ++ serializeDict d ++ "\nendobj\n"

/-- Modelled from the spec: one cross reference line giving the absolute
byte offset of an object within the final concatenated file. -/
def xrefLine (r : Ref) (off : ℤ) : String :=
  toString r.num ++ " " ++ toString off ++ "\n"

/-- Modelled from the spec: the appendTrailer and toUint8Array steps of
the PDFDataWriter chain.  In file order: the new annotation object, the
rewritten page object, a cross reference section listing the offsets of
both (relative to the prior file length), and a trailer dictionary
carrying the updated Size and chaining to the prior cross reference
offset, followed by startxref and the end of file marker. -/
def serializeFragment (f : UpdateFragment) : String :=
  let body1 := serializeObj f.annRef f.annDict
  let body2 := serializeObj f.pageRef f.pageDict
  let off1 := f.byteLength
  let off2 := f.byteLength + (body1.length : ℤ)
  let xrefSection := "xref\n" ++ xrefLine f.annRef off1 ++ xrefLine f.pageRef off2
  let trailerSection := "trailer\n" ++
    serializeDict (f.trailer.set "Prev" (PDFVal.int f.startXRef)) ++
    "\nstartxref\n" ++ toString (f.byteLength + (body1.length : ℤ) + (body2.length : ℤ)) ++
    "\n%%EOF\n"
  body1 ++ body2 ++ xrefSection ++ trailerSection

/-- Embedding of the full writeAnnotation of core/annotation_writer.js:
the structured write followed by the serialization chain, returning the
appendable byte buffer (modelled as a string of bytes) or the rejection,
together with the document state after the trailer update. -/
def writeAnnotationBytes (pdfDocument : PDFDocument) (a : AnnotationProperties)
    (byteLength : ℤ) : Except WriteErr String × PDFDocument :=
  let r := writeAnnotationFrag pdfDocument a byteLength
  (r.1.map serializeFragment, r.2)

/-- Failure values thrown by the parsed document layer: the missing data
exception carrying a byte range, or any other exception. -/
inductive JsError where
  | missingData (b e : ℤ)
  | other (msg : String)
deriving DecidableEq

/-- Embedding of NetworkPdfManager.ensure from core/pdf_manager.js.  The
property access and optional method application are abstracted as one
operation op on an abstract state of the byte cache; requestRange is
abstracted as req, updating that state.  The source recursion is
unbounded, so the model is fuel indexed: a none result means the
recursion did not finish within the given fuel.  The first component
collects the byte ranges requested, in order. -/
def NetworkPdfManager.ensureRun {S V : Type} (op : S → Except JsError V)
    (req : S → ℤ → ℤ → S) : ℕ → S → List (ℤ × ℤ) × Option (Except JsError V)
  | 0, _ => ([], none)
  | fuel + 1, st =>
    match op st with
    | Except.ok v => ([], some (Except.ok v))
    | Except.error (JsError.missingData b e) =>
        let rest := NetworkPdfManager.ensureRun op req fuel (req st b e)
        ((b, e) :: rest.1, rest.2)
    | Except.error err => ([], some (Except.error err))

/-- Embedding of LocalPdfManager.ensure from core/pdf_manager.js: direct
invocation of the operation with no catch, no range request and no
retry; the async wrapper turns a thrown error into a rejection. -/
def LocalPdfManager.ensure {S V : Type} (op : S → Except JsError V) (st : S) :
    List (ℤ × ℤ) × Except JsError V :=
  ([], op st)

/-- Embedding of UpdatePdfManager.ensure from core/pdf_manager.js, whose
body is identical to the fully resident variant: direct invocation with
no catch, no range request and no retry. -/
def UpdatePdfManager.ensure {S V : Type} (op : S → Except JsError V) (st : S) :
    List (ℤ × ℤ) × Except JsError V :=
  ([], op st)

theorem Dict.getRawList_eq_none {l : List (String × PDFVal)} {k : String}
    (h : ∀ kv ∈ l, kv.1 ≠ k) : Dict.getRawList l k = none := by
  induction l with
  | nil => rfl
  | cons kv rest ih =>
    obtain ⟨k1, v1⟩ := kv
    simp only [Dict.getRawList]
    rw [if_neg (h (k1, v1) (List.mem_cons_self _ _))]
    exact ih (fun kv hm => h kv (List.mem_cons_of_mem _ hm))

theorem Dict.getRawList_isSome_of_mem {l : List (String × PDFVal)} {k : String}
    (h : k ∈ l.map (fun kv => kv.1)) : ∃ v, Dict.getRawList l k = some v := by
  induction l with
  | nil => simp at h
  | cons kv rest ih =>
    obtain ⟨k1, v1⟩ := kv
    by_cases hk : k1 = k
    · exact ⟨v1, by simp [Dict.getRawList, hk]⟩
    · simp only [List.map_cons, List.mem_cons] at h
      rcases h with h | h
      · exact absurd h.symm hk
      · simpa [Dict.getRawList, hk] using ih h

theorem Dict.setList_of_fresh {l : List (String × PDFVal)} {k : String} (v : PDFVal)
    (h : ∀ kv ∈ l, kv.1 ≠ k) : Dict.setList l k v = l ++ [(k, v)] := by
  induction l with
  | nil => rfl
  | cons kv rest ih =>
    obtain ⟨k1, v1⟩ := kv
    simp only [Dict.setList]
    rw [if_neg (h (k1, v1) (List.mem_cons_self _ _))]
    simp [ih (fun kv hm => h kv (List.mem_cons_of_mem _ hm))]

theorem Dict.getRawList_append_left {l1 l2 : List (String × PDFVal)} {k : String}
    {v : PDFVal} (h : Dict.getRawList l1 k = some v) :
    Dict.getRawList (l1 ++ l2) k = some v := by
  induction l1 with
  | nil => simp [Dict.getRawList] at h
  | cons kv rest ih =>
    obtain ⟨k1, v1⟩ := kv
    by_cases hk : k1 = k
    · simp only [Dict.getRawList, if_pos hk] at h
      simp [Dict.getRawList, hk, h]
    · simp only [Dict.getRawList, if_neg hk] at h
      simp only [List.cons_append, Dict.getRawList, if_neg hk]
      exact ih h

theorem Dict.getRawList_append_right {l1 l2 : List (String × PDFVal)} {k : String}
    (h : Dict.getRawList l1 k = none) :
    Dict.getRawList (l1 ++ l2) k = Dict.getRawList l2 k := by
  induction l1 with
  | nil => rfl
  | cons kv rest ih =>
    obtain ⟨k1, v1⟩ := kv
    by_cases hk : k1 = k
    · simp [Dict.getRawList, hk] at h
    · simp only [Dict.getRawList, if_neg hk] at h
      simp only [List.cons_append, Dict.getRawList, if_neg hk]
      exact ih h

theorem Dict.getRawList_setList_self (l : List (String × PDFVal)) (k : String)
    (v : PDFVal) : Dict.getRawList (Dict.setList l k v) k = some v := by
  induction l with
  | nil => simp [Dict.setList, Dict.getRawList]
  | cons kv rest ih =>
    obtain ⟨k1, v1⟩ := kv
    by_cases hk : k1 = k
    · simp [Dict.setList, Dict.getRawList, hk]
    · simp [Dict.setList, Dict.getRawList, hk, ih]

theorem Dict.getRawList_filter_ne {l : List (String × PDFVal)} {k : String}
    (hk : k ≠ "Annots") :
    Dict.getRawList (l.filter (fun kv => kv.1 != "Annots")) k = Dict.getRawList l k := by
  induction l with
  | nil => rfl
  | cons kv rest ih =>
    obtain ⟨k1, v1⟩ := kv
    by_cases ha : k1 = "Annots"
    · subst ha
      have hne : ¬("Annots" = k) := fun hc => hk hc.symm
      simp [List.filter_cons, Dict.getRawList, hne, ih]
    · simp only [List.filter_cons]
      simp only [show ((k1, v1).1 != "Annots") = true by simpa using ha, if_pos]
      by_cases hke : k1 = k
      · simp [Dict.getRawList, hke]
      · simp [Dict.getRawList, hke, ih]


/-- Reference shape of the copy loop result: for each key in order, skip
Annots, otherwise pair the key with its stored value. -/
def copyList (pageDict : Dict) : List String → List (String × PDFVal)
  | [] => []
  | k :: ks =>
    if k = "Annots" then copyList pageDict ks
    else
      match pageDict.getRaw k with
      | some v => (k, v) :: copyList pageDict ks
      | none => copyList pageDict ks

theorem copy_go (pageDict : Dict) (ks : List String) :
    ∀ acc : Dict, ks.Nodup →
      (∀ k ∈ ks, ∀ kv ∈ acc.entries, kv.1 ≠ k) →
      (ks.foldl (copyStep pageDict) acc).entries = acc.entries ++ copyList pageDict ks := by
  induction ks with
  | nil => intro acc _ _; simp [copyList]
  | cons k rest ih =>
    intro acc hnd hfresh
    have hndr : rest.Nodup := (List.nodup_cons.mp hnd).2
    have hkr : k ∉ rest := (List.nodup_cons.mp hnd).1
    simp only [List.foldl_cons]
    by_cases hk : k = "Annots"
    · have hstep : copyStep pageDict acc k = acc := by simp [copyStep, hk]
      rw [hstep, show copyList pageDict (k :: rest) = copyList pageDict rest by
        simp [copyList, hk]]
      exact ih acc hndr (fun k2 hm => hfresh k2 (List.mem_cons_of_mem _ hm))
    · cases hv : pageDict.getRaw k with
      | none =>
        have hstep : copyStep pageDict acc k = acc := by simp [copyStep, hk, hv]
        rw [hstep, show copyList pageDict (k :: rest) = copyList pageDict rest by
          simp [copyList, hk, hv]]
        exact ih acc hndr (fun k2 hm => hfresh k2 (List.mem_cons_of_mem _ hm))
      | some v =>
        have hstep : (copyStep pageDict acc k).entries = acc.entries ++ [(k, v)] := by
          simp only [copyStep, if_neg hk, hv, Dict.set]
          exact Dict.setList_of_fresh v (hfresh k (List.mem_cons_self _ _))
        have hfresh2 : ∀ k2 ∈ rest, ∀ kv ∈ (copyStep pageDict acc k).entries, kv.1 ≠ k2 := by
          intro k2 hm kv hkv
          rw [hstep] at hkv
          rcases List.mem_append.mp hkv with hkv | hkv
          · exact hfresh k2 (List.mem_cons_of_mem _ hm) kv hkv
          · simp only [List.mem_singleton] at hkv
            subst hkv
            intro hc
            apply hkr
            rw [show k = k2 from hc]
            exact hm
        rw [ih (copyStep pageDict acc k) hndr hfresh2, hstep,
          show copyList pageDict (k :: rest) = (k, v) :: copyList pageDict rest by
            simp [copyList, hk, hv]]
        simp

theorem copyList_congr {d d2 : Dict} {ks : List String}
    (h : ∀ k ∈ ks, d.getRaw k = d2.getRaw k) : copyList d ks = copyList d2 ks := by
  induction ks with
  | nil => rfl
  | cons k rest ih =>
    have hh := h k (List.mem_cons_self _ _)
    have ihh := ih (fun k2 hm => h k2 (List.mem_cons_of_mem _ hm))
    simp [copyList, hh, ihh]

theorem copyList_self {l : List (String × PDFVal)}
    (h : (l.map (fun kv => kv.1)).Nodup) :
    copyList ⟨l⟩ (l.map (fun kv => kv.1)) = l.filter (fun kv => kv.1 != "Annots") := by
  induction l with
  | nil => rfl
  | cons kv rest ih =>
    obtain ⟨k, v⟩ := kv
    have hndr : (rest.map (fun kv => kv.1)).Nodup := (List.nodup_cons.mp h).2
    have hkr : k ∉ rest.map (fun kv => kv.1) := (List.nodup_cons.mp h).1
    have hcongr : copyList ⟨(k, v) :: rest⟩ (rest.map (fun kv => kv.1)) =
        copyList ⟨rest⟩ (rest.map (fun kv => kv.1)) := by
      apply copyList_congr
      intro k2 hk2
      have hne : k ≠ k2 := fun hc => hkr (hc.symm ▸ hk2)
      simp [Dict.getRaw, Dict.getRawList, hne]
    have hself : (⟨(k, v) :: rest⟩ : Dict).getRaw k = some v := by
      simp [Dict.getRaw, Dict.getRawList]
    by_cases hk : k = "Annots"
    · subst hk
      rw [show List.map (fun kv => kv.1) (("Annots", v) :: rest) =
          "Annots" :: List.map (fun kv => kv.1) rest from rfl]
      rw [show copyList ⟨("Annots", v) :: rest⟩ ("Annots" :: List.map (fun kv => kv.1) rest) =
          copyList ⟨("Annots", v) :: rest⟩ (List.map (fun kv => kv.1) rest) by
        simp [copyList]]
      rw [hcongr, ih hndr]
      simp [List.filter_cons]
    · simp only [List.map_cons, copyList, if_neg hk, hself]
      rw [hcongr, ih hndr]
      simp [List.filter_cons, hk]

theorem copyExceptAnnots_entries {d : Dict} (h : d.getKeys.Nodup) :
    (copyExceptAnnots d).entries = d.entries.filter (fun kv => kv.1 != "Annots") := by
  unfold copyExceptAnnots
  rw [copy_go d d.getKeys Dict.empty h (by intro k _ kv hkv; simp [Dict.empty] at hkv)]
  simp only [Dict.empty, List.nil_append]
  exact copyList_self h

theorem newPageDictFor_entries {d : Dict} (h : d.getKeys.Nodup) (annots : List Ref) :
    (newPageDictFor d annots).entries =
      d.entries.filter (fun kv => kv.1 != "Annots") ++
        [("Annots", PDFVal.arr (annots.map PDFVal.ref))] := by
  unfold newPageDictFor
  show Dict.setList (copyExceptAnnots d).entries "Annots" _ = _
  rw [copyExceptAnnots_entries h]
  apply Dict.setList_of_fresh
  intro kv hkv
  have := (List.mem_filter.mp hkv).2
  simpa using this

theorem map_fst_filter_ne (l : List (String × PDFVal)) :
    (l.filter (fun kv => kv.1 != "Annots")).map (fun kv => kv.1) =
      (l.map (fun kv => kv.1)).filter (fun k => k != "Annots") := by
  induction l with
  | nil => rfl
  | cons kv rest ih =>
    obtain ⟨k, v⟩ := kv
    by_cases hk : k = "Annots"
    · simp [List.filter_cons, hk, ih]
    · simp [List.filter_cons, hk, ih]

theorem newPageDictFor_getKeys {d : Dict} (h : d.getKeys.Nodup) (annots : List Ref) :
    (newPageDictFor d annots).getKeys =
      d.getKeys.filter (fun k => k != "Annots") ++ ["Annots"] := by
  show (newPageDictFor d annots).entries.map (fun kv => kv.1) = _
  rw [newPageDictFor_entries h]
  rw [List.map_append, map_fst_filter_ne]
  rfl

theorem newPageDictFor_getRaw_ne {d : Dict} (h : d.getKeys.Nodup) (annots : List Ref)
    {k : String} (hk : k ≠ "Annots") (hm : k ∈ d.getKeys) :
    (newPageDictFor d annots).getRaw k = d.getRaw k := by
  show Dict.getRawList (newPageDictFor d annots).entries k = _
  rw [newPageDictFor_entries h]
  obtain ⟨v, hv⟩ := Dict.getRawList_isSome_of_mem hm
  rw [Dict.getRawList_append_left (by rw [Dict.getRawList_filter_ne hk]; exact hv)]
  exact hv.symm

theorem newPageDictFor_getRaw_annots {d : Dict} (h : d.getKeys.Nodup)
    (annots : List Ref) :
    (newPageDictFor d annots).getRaw "Annots" =
      some (PDFVal.arr (annots.map PDFVal.ref)) := by
  show Dict.getRawList (newPageDictFor d annots).entries "Annots" = _
  rw [newPageDictFor_entries h]
  rw [Dict.getRawList_append_right (Dict.getRawList_eq_none (by
    intro kv hkv
    have := (List.mem_filter.mp hkv).2
    simpa using this))]
  simp [Dict.getRawList]

theorem writeFrag_pages (doc : PDFDocument) (a : AnnotationProperties) (L : ℤ) :
    ((writeAnnotationFrag doc a L).2).pages = doc.pages := by
  unfold writeAnnotationFrag
  rcases hs : doc.xref.trailer.get "Size" with _ | v
  · rfl
  · cases v with
    | name s => rfl
    | str s => rfl
    | ref r => rfl
    | arr xs => rfl
    | int n =>
      dsimp only []
      rcases hpg : doc.getPage a.page with _ | pg
      · rfl
      · rfl

theorem writeFrag_startXRef (doc : PDFDocument) (a : AnnotationProperties) (L : ℤ) :
    ((writeAnnotationFrag doc a L).2).startXRef = doc.startXRef := by
  unfold writeAnnotationFrag
  rcases hs : doc.xref.trailer.get "Size" with _ | v
  · rfl
  · cases v with
    | name s => rfl
    | str s => rfl
    | ref r => rfl
    | arr xs => rfl
    | int n =>
      dsimp only []
      rcases hpg : doc.getPage a.page with _ | pg
      · rfl
      · rfl

theorem writeFrag_size (doc : PDFDocument) (a : AnnotationProperties) (L : ℤ)
    {n : ℤ} (hs : doc.xref.trailer.get "Size" = some (PDFVal.int n)) :
    ((writeAnnotationFrag doc a L).2).xref.trailer.get "Size" =
      some (PDFVal.int (n + 1)) := by
  unfold writeAnnotationFrag
  rw [hs]
  dsimp only []
  rcases hpg : doc.getPage a.page with _ | pg
  · simp [Dict.get, Dict.getRaw, Dict.set, Dict.getRawList_setList_self]
  · simp [Dict.get, Dict.getRaw, Dict.set, Dict.getRawList_setList_self]

theorem writeFrag_ok_spec (doc : PDFDocument) (a : AnnotationProperties) (L : ℤ)
    {n : ℤ} (hs : doc.xref.trailer.get "Size" = some (PDFVal.int n))
    {f : UpdateFragment} (hok : (writeAnnotationFrag doc a L).1 = Except.ok f) :
    ∃ pg, doc.getPage a.page = some pg ∧
      f = { byteLength := L
            trailer := doc.xref.trailer.set "Size" (PDFVal.int (n + 1))
            startXRef := doc.startXRef
            annRef := { num := n, gen := 0 }
            annDict := annotationDict a pg
            pageRef := pg.ref
            pageDict := newPageDictFor pg.pageDict
              (pg.annotations ++ [{ num := n, gen := 0 }]) } := by
  unfold writeAnnotationFrag at hok
  rw [hs] at hok
  dsimp only [] at hok
  rcases hpg : doc.getPage a.page with _ | pg
  · rw [hpg] at hok
    simp at hok
  · rw [hpg] at hok
    simp only [Except.ok.injEq] at hok
    exact ⟨pg, rfl, hok.symm⟩

theorem writeFrag_err_spec (doc : PDFDocument) (a : AnnotationProperties) (L : ℤ)
    {n : ℤ} (hs : doc.xref.trailer.get "Size" = some (PDFVal.int n))
    (hpg : doc.getPage a.page = none) :
    (writeAnnotationFrag doc a L).1 = Except.error WriteErr.pageNotFound := by
  unfold writeAnnotationFrag
  rw [hs]
  dsimp only []
  rw [hpg]

theorem writeFrag_fst_congr (doc1 doc2 : PDFDocument) (a : AnnotationProperties)
    (L : ℤ) (ht : doc1.xref.trailer = doc2.xref.trailer)
    (hsx : doc1.startXRef = doc2.startXRef)
    (hp : doc1.getPage a.page = doc2.getPage a.page) :
    (writeAnnotationFrag doc1 a L).1 = (writeAnnotationFrag doc2 a L).1 := by
  unfold writeAnnotationFrag
  rw [ht, hp]
  rcases hs : doc2.xref.trailer.get "Size" with _ | v
  · rfl
  · cases v with
    | name s => rfl
    | str s => rfl
    | ref r => rfl
    | arr xs => rfl
    | int n =>
      dsimp only []
      rcases hpg : doc2.getPage a.page with _ | pg
      · rfl
      · dsimp only []
        rw [hsx]

/-- Sample page used as a concrete witness input: view rectangle of a US
letter page, one prior annotation, a page dictionary whose Annots key
sits between two other keys. -/
def samplePage : Page :=
  { ref := { num := 3, gen := 0 }
    view := { v0 := 0, v1 := 0, v2 := 612, v3 := 792 }
    annotations := [{ num := 7, gen := 0 }]
    pageDict := ⟨[("Type", PDFVal.name "Page"),
                  ("Annots", PDFVal.arr [PDFVal.ref { num := 7, gen := 0 }]),
                  ("Contents", PDFVal.ref { num := 5, gen := 0 })]⟩ }

/-- Sample document used as a concrete witness input: one page, trailer
Size of ten. -/
def sampleDoc : PDFDocument :=
  { xref := { trailer := ⟨[("Size", PDFVal.int 10),
                           ("Root", PDFVal.ref { num := 1, gen := 0 })]⟩ }
    startXRef := 416
    pages := [samplePage] }

/-- Sample annotation request with an author. -/
def sampleAnn : AnnotationProperties :=
  { page := 0
    coords := { x := 1/2, y := 1/2 }
    contents := "hello"
    author := some "A" }

/-- Sample annotation request without an author, used as the second
sequential request. -/
def sampleAnn2 : AnnotationProperties :=
  { page := 0
    coords := { x := 0, y := 1 }
    contents := "second"
    author := none }

/-- Document state after the first sample write. -/
def sampleDoc1 : PDFDocument := (writeAnnotationFrag sampleDoc sampleAnn 0).2

/-- Fragment produced by the first sample write. -/
def wF1 : UpdateFragment :=
  { byteLength := 0
    trailer := sampleDoc.xref.trailer.set "Size" (PDFVal.int (10 + 1))
    startXRef := 416
    annRef := { num := 10, gen := 0 }
    annDict := annotationDict sampleAnn samplePage
    pageRef := samplePage.ref
    pageDict := newPageDictFor samplePage.pageDict
      (samplePage.annotations ++ [{ num := 10, gen := 0 }]) }

/-- Fragment produced by the second sample write, built on the updated
document state. -/
def wF2 : UpdateFragment :=
  { byteLength := 0
    trailer := sampleDoc1.xref.trailer.set "Size" (PDFVal.int (11 + 1))
    startXRef := 416
    annRef := { num := 11, gen := 0 }
    annDict := annotationDict sampleAnn2 samplePage
    pageRef := samplePage.ref
    pageDict := newPageDictFor samplePage.pageDict
      (samplePage.annotations ++ [{ num := 11, gen := 0 }]) }

/-- C1: for every page and every annotation request whose fractional
coordinates lie in the unit square, the Rect stored in the new annotation
dictionary equals the four element array with lower left corner obtained
by multiplying the fractions by the view width and height (view
components 2 and 3) and truncating toward zero, and upper right corner
exactly 12 wider and 10 taller; the formula holds for every contents
value, so the 12 by 10 footprint is independent of the contents length. -/
theorem C1_rect_formula (a : AnnotationProperties) (pg : Page)
    (hx0 : 0 ≤ a.coords.x) (hx1 : a.coords.x ≤ 1)
    (hy0 : 0 ≤ a.coords.y) (hy1 : a.coords.y ≤ 1) :
    (annotationDict a pg).getRaw "Rect" =
      some (PDFVal.arr [PDFVal.int (jsTrunc (a.coords.x * pg.view.v2)),
        PDFVal.int (jsTrunc (a.coords.y * pg.view.v3)),
        PDFVal.int (jsTrunc (a.coords.x * pg.view.v2) + 12),
        PDFVal.int (jsTrunc (a.coords.y * pg.view.v3) + 10)]) := by
  rcases a with ⟨pga, ⟨ax, ay⟩, ac, _ | au⟩ <;> rfl

theorem C1_rect_formula_witness :
    (annotationDict sampleAnn samplePage).getRaw "Rect" =
      some (PDFVal.arr [PDFVal.int (jsTrunc (sampleAnn.coords.x * samplePage.view.v2)),
        PDFVal.int (jsTrunc (sampleAnn.coords.y * samplePage.view.v3)),
        PDFVal.int (jsTrunc (sampleAnn.coords.x * samplePage.view.v2) + 12),
        PDFVal.int (jsTrunc (sampleAnn.coords.y * samplePage.view.v3) + 10)]) :=
  C1_rect_formula sampleAnn samplePage (by norm_num [sampleAnn])
    (by norm_num [sampleAnn]) (by norm_num [sampleAnn]) (by norm_num [sampleAnn])

/-- C2: a write mints the Ref with number equal to the trailer Size read
before the increment and generation zero, and afterwards Size is exactly
one larger; a second sequential write building on the updated state mints
the next number, so the two object numbers differ by exactly one, are
distinct, and Size only ever grows. -/
theorem C2_ref_allocation (doc : PDFDocument) (a1 a2 : AnnotationProperties)
    (L1 L2 : ℤ) (n : ℤ) (f1 f2 : UpdateFragment)
    (hsize : doc.xref.trailer.get "Size" = some (PDFVal.int n))
    (h1 : (writeAnnotationFrag doc a1 L1).1 = Except.ok f1)
    (h2 : (writeAnnotationFrag (writeAnnotationFrag doc a1 L1).2 a2 L2).1 =
      Except.ok f2) :
    f1.annRef = { num := n, gen := 0 } ∧
    ((writeAnnotationFrag doc a1 L1).2).xref.trailer.get "Size" =
      some (PDFVal.int (n + 1)) ∧
    f2.annRef = { num := n + 1, gen := 0 } ∧
    ((writeAnnotationFrag (writeAnnotationFrag doc a1 L1).2 a2 L2).2).xref.trailer.get
      "Size" = some (PDFVal.int (n + 2)) ∧
    f2.annRef.num = f1.annRef.num + 1 ∧
    f1.annRef.num ≠ f2.annRef.num ∧
    n < n + 1 ∧ n + 1 < n + 2 := by
  obtain ⟨pg1, hpg1, hf1⟩ := writeFrag_ok_spec doc a1 L1 hsize h1
  have hs1 := writeFrag_size doc a1 L1 hsize
  obtain ⟨pg2, hpg2, hf2⟩ := writeFrag_ok_spec _ a2 L2 hs1 h2
  have hs2 := writeFrag_size _ a2 L2 hs1
  have hadd : n + 1 + 1 = n + 2 := by ring
  rw [hadd] at hs2
  refine ⟨by rw [hf1], hs1, by rw [hf2], hs2, by rw [hf1, hf2], ?_, by omega, by omega⟩
  rw [hf1, hf2]
  simp only [ne_eq]
  omega

theorem C2_ref_allocation_witness :
    wF1.annRef = { num := 10, gen := 0 } ∧ wF2.annRef = { num := 11, gen := 0 } := by
  have h := C2_ref_allocation sampleDoc sampleAnn sampleAnn2 0 0 10 wF1 wF2 rfl rfl rfl
  exact ⟨h.1, h.2.2.1⟩

/-- C3: one step of the progressively fetched ensure protocol: when the
operation signals missing bytes in a range, ensure requests exactly that
range and then retries the same operation from scratch on the updated
byte cache state; any failure that is not a missing range signal is
returned unchanged immediately, with no range request and no retry. -/
theorem C3_network_ensure_protocol {S V : Type} (op : S → Except JsError V)
    (req : S → ℤ → ℤ → S) (fuel : ℕ) (st : S) :
    (∀ b e, op st = Except.error (JsError.missingData b e) →
      NetworkPdfManager.ensureRun op req (fuel + 1) st =
        ((b, e) :: (NetworkPdfManager.ensureRun op req fuel (req st b e)).1,
          (NetworkPdfManager.ensureRun op req fuel (req st b e)).2)) ∧
    (∀ err, op st = Except.error err →
      (∀ b e, err ≠ JsError.missingData b e) →
      NetworkPdfManager.ensureRun op req (fuel + 1) st =
        ([], some (Except.error err))) := by
  constructor
  · intro b e h
    simp [NetworkPdfManager.ensureRun, h]
  · intro err h hne
    cases err with
    | missingData b e => exact absurd rfl (hne b e)
    | other m => simp [NetworkPdfManager.ensureRun, h]

/-- Operation that signals a missing byte range on the initial state and
succeeds afterwards, used as a witness input. -/
def wOpMissing : ℕ → Except JsError ℕ :=
  fun st => if st = 0 then Except.error (JsError.missingData 2 9) else Except.ok st

/-- Operation that always fails with an error that is not a missing range
signal, used as a witness input. -/
def wOpOther : ℕ → Except JsError ℕ :=
  fun _ => Except.error (JsError.other "bad trailer")

/-- Range request model that advances the byte cache state, used as a
witness input. -/
def wReq : ℕ → ℤ → ℤ → ℕ := fun _ _ _ => 7

theorem C3_network_ensure_protocol_witness :
    NetworkPdfManager.ensureRun wOpMissing wReq 2 0 = ([(2, 9)], some (Except.ok 7)) ∧
    NetworkPdfManager.ensureRun wOpOther wReq 3 0 =
      ([], some (Except.error (JsError.other "bad trailer"))) := by
  constructor
  · have h := (C3_network_ensure_protocol wOpMissing wReq 1 0).1 2 9 rfl
    rw [h]
    rfl
  · exact (C3_network_ensure_protocol wOpOther wReq 2 0).2
      (JsError.other "bad trailer") rfl (fun b e h => JsError.noConfusion h)

/-- C4: the rewritten page dictionary keeps every key of the original
except Annots in their original relative order with their original raw
values, binds Annots to the updated annotation sequence, and the write
never modifies the original page objects of the document. -/
theorem C4_page_rewrite (pageDict : Dict) (annots : List Ref)
    (hnd : pageDict.getKeys.Nodup) :
    (newPageDictFor pageDict annots).getKeys =
        pageDict.getKeys.filter (fun k => k != "Annots") ++ ["Annots"] ∧
    (∀ k, k ∈ pageDict.getKeys → k ≠ "Annots" →
        (newPageDictFor pageDict annots).getRaw k = pageDict.getRaw k) ∧
    (newPageDictFor pageDict annots).getRaw "Annots" =
        some (PDFVal.arr (annots.map PDFVal.ref)) ∧
    (∀ (doc : PDFDocument) (a : AnnotationProperties) (L : ℤ),
        ((writeAnnotationFrag doc a L).2).pages = doc.pages) :=
  ⟨newPageDictFor_getKeys hnd annots,
   fun _ hm hk => newPageDictFor_getRaw_ne hnd annots hk hm,
   newPageDictFor_getRaw_annots hnd annots,
   writeFrag_pages⟩

theorem C4_page_rewrite_witness :
    (newPageDictFor samplePage.pageDict
        (samplePage.annotations ++ [({ num := 10, gen := 0 } : Ref)])).getKeys =
      samplePage.pageDict.getKeys.filter (fun k => k != "Annots") ++ ["Annots"] ∧
    (newPageDictFor samplePage.pageDict
        (samplePage.annotations ++ [({ num := 10, gen := 0 } : Ref)])).getRaw "Annots" =
      some (PDFVal.arr ((samplePage.annotations ++
        [({ num := 10, gen := 0 } : Ref)]).map PDFVal.ref)) := by
  have h := C4_page_rewrite samplePage.pageDict
    (samplePage.annotations ++ [({ num := 10, gen := 0 } : Ref)]) (by decide)
  exact ⟨h.1, h.2.2.1⟩

/-- Annotation request whose page index is invalid for the sample
document, used as the failing input of the reserve before resolve bug. -/
def invalidPageAnn : AnnotationProperties :=
  { page := 5
    coords := { x := 0, y := 0 }
    contents := "x"
    author := none }

/-- C5: evaluation of the write at a failing input.  The claim states
that a failed page resolution leaves the trailer Size unchanged; the
source increments Size before resolving the page, so the failed call
below surfaces the failure to the caller (no partial buffer) but leaves
Size advanced from ten to eleven, contradicting the claim. -/
theorem C5_size_advances_on_failed_page :
    (writeAnnotationFrag sampleDoc invalidPageAnn 0).1 =
      Except.error WriteErr.pageNotFound ∧
    sampleDoc.xref.trailer.get "Size" = some (PDFVal.int 10) ∧
    ((writeAnnotationFrag sampleDoc invalidPageAnn 0).2).xref.trailer.get "Size" =
      some (PDFVal.int 11) :=
  ⟨rfl, rfl, rfl⟩

/-- C6: the write appends the new Ref to a copy of the annotation
sequence of the page: the document state after the write still holds the
original pages, resolving the page again yields the untouched snapshot,
and the fragment embeds the appended sequence only in the rewritten
dictionary it carries. -/
theorem C6_copy_not_in_place (doc : PDFDocument) (a : AnnotationProperties)
    (L : ℤ) (n : ℤ) (pg : Page) (f : UpdateFragment)
    (hsize : doc.xref.trailer.get "Size" = some (PDFVal.int n))
    (hpg : doc.getPage a.page = some pg)
    (hok : (writeAnnotationFrag doc a L).1 = Except.ok f) :
    ((writeAnnotationFrag doc a L).2).pages = doc.pages ∧
    ((writeAnnotationFrag doc a L).2).getPage a.page = some pg ∧
    f.pageDict = newPageDictFor pg.pageDict (pg.annotations ++ [f.annRef]) ∧
    f.annDict = annotationDict a pg := by
  obtain ⟨pg2, hpg2, hf⟩ := writeFrag_ok_spec doc a L hsize hok
  rw [hpg] at hpg2
  injection hpg2 with hpg2
  subst hpg2
  refine ⟨writeFrag_pages doc a L, ?_, by rw [hf], by rw [hf]⟩
  show ((writeAnnotationFrag doc a L).2).pages[a.page]? = some pg
  rw [writeFrag_pages doc a L]
  exact hpg

theorem C6_copy_not_in_place_witness :
    ((writeAnnotationFrag sampleDoc sampleAnn 0).2).pages = sampleDoc.pages ∧
    wF1.pageDict = newPageDictFor samplePage.pageDict
      (samplePage.annotations ++ [wF1.annRef]) := by
  have h := C6_copy_not_in_place sampleDoc sampleAnn 0 10 samplePage wF1 rfl rfl rfl
  exact ⟨h.1, h.2.2.1⟩

/-- C7: the new annotation dictionary carries Type equal to the name
Annot, Subtype equal to the name Text, the computed Rect, Contents equal
to the requested contents, and the T key bound to the author exactly when
an author was supplied. -/
theorem C7_annotation_dict_fields (a : AnnotationProperties) (pg : Page) :
    (annotationDict a pg).getRaw "Type" = some (PDFVal.name "Annot") ∧
    (annotationDict a pg).getRaw "Subtype" = some (PDFVal.name "Text") ∧
    (annotationDict a pg).getRaw "Contents" = some (PDFVal.str a.contents) ∧
    (annotationDict a pg).getRaw "Rect" =
      some (PDFVal.arr [PDFVal.int (jsTrunc (a.coords.x * pg.view.v2)),
        PDFVal.int (jsTrunc (a.coords.y * pg.view.v3)),
        PDFVal.int (jsTrunc (a.coords.x * pg.view.v2) + 12),
        PDFVal.int (jsTrunc (a.coords.y * pg.view.v3) + 10)]) ∧
    (∀ au, a.author = some au →
      (annotationDict a pg).getRaw "T" = some (PDFVal.str au)) ∧
    (a.author = none → (annotationDict a pg).getRaw "T" = none) := by
  rcases a with ⟨pga, ⟨ax, ay⟩, ac, au⟩
  cases au with
  | none =>
    refine ⟨rfl, rfl, rfl, rfl, fun au2 h => ?_, fun _ => rfl⟩
    exact Option.noConfusion h
  | some au =>
    refine ⟨rfl, rfl, rfl, rfl, fun au2 h => ?_, fun h => ?_⟩
    · have hau : au = au2 := Option.some.inj h
      subst hau
      rfl
    · exact Option.noConfusion h

theorem C7_annotation_dict_fields_witness :
    (annotationDict sampleAnn samplePage).getRaw "Type" =
      some (PDFVal.name "Annot") ∧
    (annotationDict sampleAnn samplePage).getRaw "T" = some (PDFVal.str "A") ∧
    (annotationDict sampleAnn2 samplePage).getRaw "T" = none :=
  ⟨(C7_annotation_dict_fields sampleAnn samplePage).1,
   (C7_annotation_dict_fields sampleAnn samplePage).2.2.2.2.1 "A" rfl,
   (C7_annotation_dict_fields sampleAnn2 samplePage).2.2.2.2.2 rfl⟩

/-- C8: the writer is deterministic, a pure function of the trailer
contents, the prior cross reference offset, the prior file byte length,
the annotation request and the resolved page: two documents agreeing on
those inputs produce byte for byte identical fragments. -/
theorem C8_deterministic (doc1 doc2 : PDFDocument) (a : AnnotationProperties)
    (L : ℤ) (ht : doc1.xref.trailer = doc2.xref.trailer)
    (hsx : doc1.startXRef = doc2.startXRef)
    (hp : doc1.getPage a.page = doc2.getPage a.page) :
    (writeAnnotationBytes doc1 a L).1 = (writeAnnotationBytes doc2 a L).1 := by
  unfold writeAnnotationBytes
  dsimp only []
  rw [writeFrag_fst_congr doc1 doc2 a L ht hsx hp]

/-- Document observationally equal to the sample for the write inputs but
with a different page list, used as a witness input. -/
def sampleDocB : PDFDocument := { sampleDoc with pages := [samplePage, samplePage] }

theorem C8_deterministic_witness :
    (writeAnnotationBytes sampleDoc sampleAnn 0).1 =
      (writeAnnotationBytes sampleDocB sampleAnn 0).1 :=
  C8_deterministic sampleDoc sampleDocB sampleAnn 0 rfl rfl rfl

/-- C9: in the rewritten page dictionary the Annots key always comes
last in insertion order, and the keys before it are exactly the other
original keys in their original order, regardless of where, or whether,
Annots appeared in the original dictionary. -/
theorem C9_annots_key_is_last (pageDict : Dict) (annots : List Ref)
    (hnd : pageDict.getKeys.Nodup) :
    ((newPageDictFor pageDict annots).getKeys).getLast? = some "Annots" ∧
    ((newPageDictFor pageDict annots).getKeys).dropLast =
      pageDict.getKeys.filter (fun k => k != "Annots") :=
  ⟨by rw [newPageDictFor_getKeys hnd annots]; exact List.getLast?_concat _,
   by rw [newPageDictFor_getKeys hnd annots]; exact List.dropLast_concat⟩

theorem C9_annots_key_is_last_witness :
    ((newPageDictFor samplePage.pageDict samplePage.annotations).getKeys).getLast? =
      some "Annots" ∧
    ((newPageDictFor samplePage.pageDict samplePage.annotations).getKeys).dropLast =
      samplePage.pageDict.getKeys.filter (fun k => k != "Annots") :=
  C9_annots_key_is_last samplePage.pageDict samplePage.annotations (by decide)

/-- C10: the fully resident and the layered ensure variants perform no
missing range handling: when the operation signals a missing byte range
the signal is returned as the rejection of the ensure future, with no
range request and no retry. -/
theorem C10_resident_ensure_propagates {S V : Type} (op : S → Except JsError V)
    (st : S) (b e : ℤ) (h : op st = Except.error (JsError.missingData b e)) :
    LocalPdfManager.ensure op st = ([], Except.error (JsError.missingData b e)) ∧
    UpdatePdfManager.ensure op st = ([], Except.error (JsError.missingData b e)) := by
  constructor <;> simp [LocalPdfManager.ensure, UpdatePdfManager.ensure, h]

theorem C10_resident_ensure_propagates_witness :
    LocalPdfManager.ensure wOpMissing 0 = ([], Except.error (JsError.missingData 2 9)) ∧
    UpdatePdfManager.ensure wOpMissing 0 = ([], Except.error (JsError.missingData 2 9)) :=
  C10_resident_ensure_propagates wOpMissing 0 2 9 rfl
